import Mathlib

/-!
# Secreta — verification of the E2EE chat relay core

Shallow embedding of the Secreta repository's protocol core:

* `client/src/crypto` (message/file hybrid encryption, `encryptMessage`,
  `decryptMessage`, `encryptFile`, `decryptFile`),
* `server/src/socket/handlers.js` (connection registry, `send_message`,
  `add_reaction`, `mark_read`, presence broadcast),
* the WebRTC ICE-candidate buffering logic of the call screen component
  (`handleIceCandidate` / `processBufferedCandidates`).

The WebCrypto platform primitives (P-256 ECDH, HKDF-SHA-256, AES-256-GCM)
are external to the repository; they are modelled as a bundle of abstract
operations (`CryptoPrimitives`) and the repository's functions are embedded
as compositions of those operations, exactly following the source.  The
contracts the platform documents for the primitives (ECDH commutativity,
AEAD round-trip, AEAD ciphertext integrity) are stated as explicit
predicates and taken as hypotheses where a theorem needs them; a concrete
executable instance (`demoCrypto`) satisfying all of them is provided so
every such theorem can be exercised on closed inputs.

Byte strings are `List Nat`; the base64/JWK transport encodings used on the
wire are bijective serialisations and are elided (envelopes carry the byte
strings themselves).
-/

namespace Secreta

/-! ## Crypto primitives (WebCrypto surface used by the repository) -/

/-- The WebCrypto operations invoked by `client/src/crypto`.  `Priv`/`Pub`
are ECDH P-256 key halves; `pubOf` is the public half belonging to a
private key (a generated key pair is determined by its private half).
`hkdfDeriveKey secret salt info` is `deriveKey {name: HKDF, salt, info,
hash: SHA-256}`; `aesKeyOfRawSecret` is `importKey('raw', sharedBits,
'AES-GCM')` (used by the file path, which imports the ECDH shared bits
directly).  `aesGcmEncrypt key iv plaintext` returns ciphertext with the
128-bit tag embedded; `aesGcmDecrypt` returns `none` on an authentication
failure (the thrown `OperationError`).  `strEncode`/`strDecode` are the
UTF-8 string/byte conversions of `crypto/utils.js`. -/
structure CryptoPrimitives where
  Priv : Type
  Pub : Type
  Secret : Type
  AesKey : Type
  pubOf : Priv → Pub
  deriveBits : Priv → Pub → Secret
  hkdfDeriveKey : Secret → List Nat → List Nat → AesKey
  aesKeyOfRawSecret : Secret → AesKey
  strEncode : String → List Nat
  strDecode : List Nat → String
  aesGcmEncrypt : AesKey → List Nat → List Nat → List Nat
  aesGcmDecrypt : AesKey → List Nat → List Nat → Option (List Nat)

/-- `deriveAESKey` of the encryption module: ECDH `deriveBits` between our
private key and their public key, then HKDF with a fixed all-zero 16-byte
salt and the fixed info string `secreta-e2ee-v1`. -/
def deriveAESKey (C : CryptoPrimitives) (priv : C.Priv) (pub : C.Pub) : C.AesKey :=
  C.hkdfDeriveKey (C.deriveBits priv pub) (List.replicate 16 0) (C.strEncode "secreta-e2ee-v1")

/-- The encrypted message payload `{ephemeralPublicKey, iv, ciphertext}`
returned by `encryptMessage` (base64 transport encoding elided). -/
structure EncryptedEnvelope (C : CryptoPrimitives) where
  ephemeralPublicKey : C.Pub
  iv : List Nat
  ciphertext : List Nat

/-- `encryptMessage(plaintext, recipientPublicKeyJwk)`.  The fresh
ephemeral key pair and the fresh random 96-bit IV are produced by platform
randomness; they enter the embedding as the explicit arguments
`ephemeralPriv` and `iv`. -/
def encryptMessage (C : CryptoPrimitives) (plaintext : String)
    (recipientPublicKey : C.Pub) (ephemeralPriv : C.Priv) (iv : List Nat) :
    EncryptedEnvelope C :=
  let aesKey := deriveAESKey C ephemeralPriv recipientPublicKey
  { ephemeralPublicKey := C.pubOf ephemeralPriv
    iv := iv
    ciphertext := C.aesGcmEncrypt aesKey iv (C.strEncode plaintext) }

/-- `decryptMessage(encryptedData)`.  Reads the stored identity key pair
(`getStoredKeyPair`, passed here as `storedPriv`; `none` models the
"No encryption keys found" failure), derives the AES key from our private
key and the sender's ephemeral public key, and AES-GCM-decrypts.  A tag
failure propagates as `none`. -/
def decryptMessage (C : CryptoPrimitives) (encryptedData : EncryptedEnvelope C)
    (storedPriv : Option C.Priv) : Option String :=
  match storedPriv with
  | none => none
  | some priv =>
    let aesKey := deriveAESKey C priv encryptedData.ephemeralPublicKey
    (C.aesGcmDecrypt aesKey encryptedData.iv encryptedData.ciphertext).map C.strDecode

/-- Result of `encryptFile` (the pass-through `metadata {name,type,size}`
record is omitted: it is copied verbatim from the input file). -/
structure FileEnvelope (C : CryptoPrimitives) where
  encryptedData : List Nat
  ephemeralPublicKey : C.Pub
  iv : List Nat

/-- `encryptFile(file, recipientPublicKeyJwk, senderPublicKeyJwk)`: fresh
ephemeral ECDH pair, `deriveBits` with the recipient's public key, then the
shared bits are imported DIRECTLY as the AES-GCM key (`importKey('raw',
sharedBits, 'AES-GCM')`) — note: no HKDF step, unlike `encryptMessage`. -/
def encryptFile (C : CryptoPrimitives) (fileBuffer : List Nat)
    (recipientPublicKey : C.Pub) (ephemeralPriv : C.Priv) (iv : List Nat) :
    FileEnvelope C :=
  let aesKey := C.aesKeyOfRawSecret (C.deriveBits ephemeralPriv recipientPublicKey)
  { encryptedData := C.aesGcmEncrypt aesKey iv fileBuffer
    ephemeralPublicKey := C.pubOf ephemeralPriv
    iv := iv }

/-- `decryptFile(encryptedData, ephemeralPublicKeyJwk, iv)`: our stored
private key (`getPrivateKey`; `none` models "Private key not found"),
`deriveBits` with the sender's ephemeral public key, raw import of the
shared bits as the AES-GCM key, decrypt. -/
def decryptFile (C : CryptoPrimitives) (encryptedData : List Nat)
    (ephemeralPublicKey : C.Pub) (iv : List Nat) (storedPriv : Option C.Priv) :
    Option (List Nat) :=
  match storedPriv with
  | none => none
  | some priv =>
    let aesKey := C.aesKeyOfRawSecret (C.deriveBits priv ephemeralPublicKey)
    C.aesGcmDecrypt aesKey iv encryptedData

/-- Modelled from the spec: the file-encryption routine AS THE SPEC
DESCRIBES IT — "the ECDH shared secret is run through HKDF(SHA-256) to
derive the 256-bit AES-GCM key", i.e. the same `deriveAESKey` path as
message envelopes.  This definition follows the spec's words (not the
source) and exists only to be compared against `encryptFile`, which is
what the source actually does. -/
def encryptFileSpecHkdf (C : CryptoPrimitives) (fileBuffer : List Nat)
    (recipientPublicKey : C.Pub) (ephemeralPriv : C.Priv) (iv : List Nat) :
    FileEnvelope C :=
  let aesKey := deriveAESKey C ephemeralPriv recipientPublicKey
  { encryptedData := C.aesGcmEncrypt aesKey iv fileBuffer
    ephemeralPublicKey := C.pubOf ephemeralPriv
    iv := iv }

/-! ### Documented contracts of the platform primitives -/

/-- ECDH: both sides of a key agreement derive the same shared secret. -/
def ECDHComm (C : CryptoPrimitives) : Prop :=
  ∀ a b : C.Priv, C.deriveBits a (C.pubOf b) = C.deriveBits b (C.pubOf a)

/-- AES-GCM decrypts its own output under the same key and IV. -/
def AesGcmRoundTrip (C : CryptoPrimitives) : Prop :=
  ∀ k iv p, C.aesGcmDecrypt k iv (C.aesGcmEncrypt k iv p) = some p

/-- AEAD authenticity: a successful decryption only ever returns a
plaintext whose genuine encryption under that key and IV is the given
ciphertext (ideal-AEAD integrity: nothing forged decrypts). -/
def AesGcmAuth (C : CryptoPrimitives) : Prop :=
  ∀ k iv c p, C.aesGcmDecrypt k iv c = some p → c = C.aesGcmEncrypt k iv p

/-- UTF-8 string round-trip of `crypto/utils.js`. -/
def StrRoundTrip (C : CryptoPrimitives) : Prop :=
  ∀ s, C.strDecode (C.strEncode s) = s

/-- `c2` is `c` with exactly one bit of one byte toggled. -/
def IsBitFlip (c c2 : List Nat) : Prop :=
  ∃ i, ∃ h : i < c.length, ∃ b, b < 8 ∧ c2 = c.set i ((c.get ⟨i, h⟩) ^^^ (2 ^ b))

/-- Ideal-AEAD tamper rejection: no single-bit corruption of a genuine
ciphertext is itself a genuine ciphertext under the same key and IV
(for real AES-GCM this is the 128-bit-tag integrity guarantee). -/
def AesGcmFlipRejected (C : CryptoPrimitives) : Prop :=
  ∀ k iv p c2, IsBitFlip (C.aesGcmEncrypt k iv p) c2 →
    ∀ q, c2 ≠ C.aesGcmEncrypt k iv q

/-- Ideal-AEAD IV binding: a ciphertext authenticates under at most one
IV of a given length (for real AES-GCM, the tag binds the nonce). -/
def AesGcmIvBinding (C : CryptoPrimitives) : Prop :=
  ∀ k iv iv2 p q, iv.length = iv2.length →
    C.aesGcmEncrypt k iv p = C.aesGcmEncrypt k iv2 q → iv = iv2

/-- An envelope obtained from `e` by flipping a single bit of its
ciphertext or of its IV, leaving everything else intact. -/
def TamperedEnvelope (C : CryptoPrimitives) (e e2 : EncryptedEnvelope C) : Prop :=
  e2.ephemeralPublicKey = e.ephemeralPublicKey ∧
    ((IsBitFlip e.ciphertext e2.ciphertext ∧ e2.iv = e.iv) ∨
      (IsBitFlip e.iv e2.iv ∧ e2.ciphertext = e.ciphertext))

/-! ### A concrete executable instance of the primitives

`demoEnc` appends two copies of the plaintext, the IV and the key, and
`demoDec` checks that structure — a toy AEAD whose redundancy makes every
single-bit corruption detectable, so that all the contracts above hold
and the theorems can be evaluated on closed inputs. -/

def demoEnc (k : Nat) (iv p : List Nat) : List Nat := p ++ p ++ iv ++ [k]

def demoDec (k : Nat) (iv c : List Nat) : Option (List Nat) :=
  if c = c.take ((c.length - (iv.length + 1)) / 2) ++
      c.take ((c.length - (iv.length + 1)) / 2) ++ iv ++ [k]
  then some (c.take ((c.length - (iv.length + 1)) / 2)) else none

def demoCrypto : CryptoPrimitives where
  Priv := Nat
  Pub := Nat
  Secret := Nat
  AesKey := Nat
  pubOf := fun a => a
  deriveBits := fun a b => a + b
  hkdfDeriveKey := fun s salt info => s + salt.length + info.length
  aesKeyOfRawSecret := fun s => s
  strEncode := fun s => s.data.map Char.toNat
  strDecode := fun l => String.mk (l.map Char.ofNat)
  aesGcmEncrypt := demoEnc
  aesGcmDecrypt := demoDec

/-! ## Server relay (`server/src/socket/handlers.js`, `models/Message.js`)

Mongo ObjectIds are modelled as `Nat` (a nonempty ObjectId string is always
JS-truthy, so presence of an optional id field is `Option.isSome`).  The
stored JWK/base64 strings are opaque `String`s here. -/

abbrev UserId := Nat
abbrev SocketId := Nat
abbrev MsgId := Nat

/-- A persisted encrypted payload (`encryptedPayloadSchema`): all three
components are `required` in the schema. -/
structure StoredPayload where
  ephemeralPublicKey : String
  iv : String
  ciphertext : String
deriving DecidableEq

/-- An encrypted payload as it arrives on the wire, before validation:
each component may be absent (JS `undefined`, which is falsy). -/
structure EncPayload where
  ephemeralPublicKey : Option String
  iv : Option String
  ciphertext : Option String
deriving DecidableEq

/-- One emoji reaction `{emoji, userId}` as stored on a message. -/
structure Reaction where
  emoji : String
  userId : UserId
deriving DecidableEq

/-- A persisted `Message` document (fields the relay core touches; the
`replyTo`/`replyPreview`/`fileAttachment`/voice/ephemeral extras are
untouched pass-through fields and are omitted). -/
structure Msg where
  id : MsgId
  senderId : UserId
  recipientId : UserId
  encryptedForRecipient : StoredPayload
  encryptedForSender : Option EncPayload
  encrypted : StoredPayload
  delivered : Bool
  read : Bool
  reactions : List Reaction
deriving DecidableEq

/-- A `Friendship` document; the relay only ever reads `status`. -/
structure Friendship where
  requester : UserId
  recipient : UserId
  status : String
deriving DecidableEq

/-- The mutable server state the socket handlers touch: the Message store,
the Friendship store, and the `userSockets` map (userId → set of socket
ids, represented as an association list of duplicate-free lists). -/
structure ServerState where
  messages : List Msg
  friendships : List Friendship
  userSockets : List (UserId × List SocketId)
deriving DecidableEq

/-- `userSockets.get(u)` — `none` when the user has no entry. -/
def socketsOf (reg : List (UserId × List SocketId)) (u : UserId) :
    Option (List SocketId) :=
  (reg.find? (fun e => e.1 == u)).map (fun e => e.2)

/-- The user's live sockets, empty when no entry exists. -/
def liveSockets (reg : List (UserId × List SocketId)) (u : UserId) :
    List SocketId :=
  (socketsOf reg u).getD []

/-- `userSockets.get(u).add(s)` — Set semantics: adding a present element
is a no-op. -/
def addSocket (reg : List (UserId × List SocketId)) (u : UserId)
    (s : SocketId) : List (UserId × List SocketId) :=
  reg.map (fun e =>
    if e.1 = u then (e.1, if s ∈ e.2 then e.2 else e.2 ++ [s]) else e)

/-- An event emitted to a single socket via `io.to(socketId).emit(...)`. -/
inductive Emit where
  | newMessage (socketId : SocketId) (message : Msg)
  | friendStatus (socketId : SocketId) (userId : UserId) (status : String)
  | reactionUpdated (socketId : SocketId) (messageId : MsgId)
      (reactions : List Reaction)
  | messagesRead (socketId : SocketId) (messageIds : List MsgId)
      (readBy : UserId)
deriving DecidableEq

/-- `notifyFriendsOfStatus(io, userId, status)`: find every accepted
friendship involving the user (`$or` of the two orientations), compute the
other party, and emit `friend_status {userId, status}` to each of that
party's live sockets. -/
def notifyFriendsOfStatus (st : ServerState) (userId : UserId)
    (status : String) : List Emit :=
  (st.friendships.filter (fun f =>
      (f.requester == userId && f.status == "accepted") ||
        (f.recipient == userId && f.status == "accepted"))).flatMap
    (fun f =>
      let friendId := if f.requester = userId then f.recipient else f.requester
      (liveSockets st.userSockets friendId).map
        (fun s => Emit.friendStatus s userId status))

/-- The `io.on('connection', ...)` prologue: create the user's socket set
if absent, add this socket id, then (unconditionally) notify friends the
user is online.  The `lastSeen` timestamp update goes to an external
collaborator and is not modelled. -/
def handleConnection (st : ServerState) (userId : UserId)
    (socketId : SocketId) : ServerState × List Emit :=
  let reg0 := if (socketsOf st.userSockets userId).isSome then st.userSockets
    else st.userSockets ++ [(userId, [])]
  let st1 := { st with userSockets := addSocket reg0 userId socketId }
  (st1, notifyFriendsOfStatus st1 userId "online")

/-- The `send_message` request payload (every field may be absent). -/
structure SendData where
  recipientId : Option UserId
  encryptedForRecipient : Option EncPayload
  encryptedForSender : Option EncPayload
  encrypted : Option EncPayload
deriving DecidableEq

/-- The acknowledgement passed to the `send_message` callback:
`invalidPayload` is `{error: 'Invalid message payload'}`, `unauthorized`
is `{error: 'Not friends with this user'}`, `success m` is
`{success: true, message: m}`. -/
inductive SendAck where
  | invalidPayload
  | unauthorized
  | success (message : Msg)
deriving DecidableEq

/-- The `Friendship.findOne` query of the send handler: an accepted
friendship between `a` and `b`, in either orientation. -/
def isAcceptedFriendship (frs : List Friendship) (a b : UserId) : Bool :=
  frs.any (fun f =>
    (f.requester == a && f.recipient == b && f.status == "accepted") ||
      (f.requester == b && f.recipient == a && f.status == "accepted"))

/-- The `send_message` handler.  `newId` is the ObjectId Mongo assigns to
the new document.  Steps, as in the source: take the recipient envelope as
`encryptedForRecipient || encrypted` (legacy fallback); validate that the
recipient id and all three envelope components are present; verify an
accepted friendship; persist the Message (with the legacy `encrypted`
field mirroring the recipient envelope, `delivered=false`, `read=false`);
if the recipient has live sockets, emit `new_message` (still carrying
`delivered=false`) to each of them and persist `delivered=true`; ack the
final message to the sender.  The model returns the post-request store, so
the two consecutive saves of the delivered case appear as the single final
document. -/
def handleSendMessage (st : ServerState) (senderId : UserId)
    (data : SendData) (newId : MsgId) : ServerState × SendAck × List Emit :=
  match data.recipientId, data.encryptedForRecipient <|> data.encrypted with
  | some recipientId, some fr =>
    match fr.ephemeralPublicKey, fr.iv, fr.ciphertext with
    | some epk, some iv, some ct =>
      if isAcceptedFriendship st.friendships senderId recipientId then
        let message : Msg :=
          { id := newId, senderId := senderId, recipientId := recipientId
            encryptedForRecipient := ⟨epk, iv, ct⟩
            encryptedForSender := data.encryptedForSender
            encrypted := ⟨epk, iv, ct⟩
            delivered := false, read := false, reactions := [] }
        let recipientSockets := liveSockets st.userSockets recipientId
        if recipientSockets.length > 0 then
          let delivered := { message with delivered := true }
          ({ st with messages := st.messages ++ [delivered] },
            SendAck.success delivered,
            recipientSockets.map (fun s => Emit.newMessage s message))
        else
          ({ st with messages := st.messages ++ [message] },
            SendAck.success message, [])
      else (st, SendAck.unauthorized, [])
    | _, _, _ => (st, SendAck.invalidPayload, [])
  | _, _ => (st, SendAck.invalidPayload, [])

/-- Acknowledgement of `add_reaction`: `notFound` is
`{error: 'Message not found'}`. -/
inductive ReactionAck where
  | notFound
  | success (reactions : List Reaction)
deriving DecidableEq

/-- The toggle at the heart of the `add_reaction` handler: if a reaction
by this `(userId, emoji)` pair exists, remove it (filter), otherwise
append one. -/
def toggleReaction (reactions : List Reaction) (userId : UserId)
    (emoji : String) : List Reaction :=
  if reactions.any (fun r => r.userId == userId && r.emoji == emoji) then
    reactions.filter (fun r => !(r.userId == userId && r.emoji == emoji))
  else
    reactions ++ [⟨emoji, userId⟩]

/-- The `add_reaction` handler: `Message.findById`, toggle, `save`, then
emit `reaction_updated` to the recipient's sockets and to the reacting
user's own sockets.  Mongo `_id`s are unique, so saving the found document
is modelled as updating every entry with that id. -/
def handleAddReaction (st : ServerState) (userId : UserId)
    (messageId : MsgId) (emoji : String) (recipientId : UserId) :
    ServerState × ReactionAck × List Emit :=
  match st.messages.find? (fun m => m.id == messageId) with
  | none => (st, ReactionAck.notFound, [])
  | some message =>
    let reactions2 := toggleReaction message.reactions userId emoji
    let messages2 := st.messages.map (fun m =>
      if m.id = messageId then { m with reactions := reactions2 } else m)
    ({ st with messages := messages2 }, ReactionAck.success reactions2,
      (liveSockets st.userSockets recipientId).map
          (fun s => Emit.reactionUpdated s messageId reactions2) ++
        (liveSockets st.userSockets userId).map
          (fun s => Emit.reactionUpdated s messageId reactions2))

/-- The `mark_read` handler: `updateMany({_id ∈ messageIds, recipientId:
readerId}, {read: true})`, then emit `messages_read {messageIds, readBy:
readerId}` to each live socket of the `senderId` NAMED IN THE REQUEST,
carrying the requested id list verbatim. -/
def handleMarkRead (st : ServerState) (readerId : UserId)
    (messageIds : List MsgId) (senderId : UserId) :
    ServerState × List Emit :=
  ({ st with messages := st.messages.map (fun m =>
      if m.id ∈ messageIds ∧ m.recipientId = readerId then
        { m with read := true } else m) },
    (liveSockets st.userSockets senderId).map
      (fun s => Emit.messagesRead s messageIds readerId))

/-! ## Call-signaling ICE candidate buffering (CallScreen component)

The per-call mutable pieces the candidate logic touches:
`peerConnectionRef.current` (null or created, and whether
`remoteDescription` is set) and `iceCandidatesBuffer.current`; `applied`
records the arguments of the `pc.addIceCandidate` calls in order. -/

structure CallSession where
  pcCreated : Bool
  hasRemoteDesc : Bool
  buffer : List Nat
  applied : List Nat
deriving DecidableEq

/-- `handleIceCandidate(data)`: no peer connection yet → buffer; remote
description set → apply immediately; otherwise buffer. -/
def handleIceCandidate (s : CallSession) (c : Nat) : CallSession :=
  if !s.pcCreated then { s with buffer := s.buffer ++ [c] }
  else if s.hasRemoteDesc then { s with applied := s.applied ++ [c] }
  else { s with buffer := s.buffer ++ [c] }

/-- The `while (buffer.length > 0) { candidate = buffer.shift();
addIceCandidate(candidate) }` loop. -/
def drainBuffer (applied buffer : List Nat) : List Nat × List Nat :=
  match buffer with
  | [] => (applied, [])
  | c :: rest => drainBuffer (applied ++ [c]) rest

/-- `processBufferedCandidates()`: returns untouched unless the peer
connection exists and has a remote description; otherwise drains the
buffer front-to-back into `addIceCandidate`. -/
def processBufferedCandidates (s : CallSession) : CallSession :=
  if s.pcCreated && s.hasRemoteDesc then
    let r := drainBuffer s.applied s.buffer
    { s with applied := r.1, buffer := r.2 }
  else s

/-- `setRemoteDescription(...)` immediately followed by
`processBufferedCandidates()` (the shared tail of `handleOffer` and
`handleAnswer`, both guarded on the peer connection existing). -/
def applyRemoteDescription (s : CallSession) : CallSession :=
  if s.pcCreated then processBufferedCandidates { s with hasRemoteDesc := true }
  else s

/-- The two call-session events claim C6 is about. -/
inductive CallEvent where
  | recvCandidate (c : Nat)
  | setRemoteDesc
deriving DecidableEq

def callStep (s : CallSession) : CallEvent → CallSession
  | CallEvent.recvCandidate c => handleIceCandidate s c
  | CallEvent.setRemoteDesc => applyRemoteDescription s

def runCall (s : CallSession) (events : List CallEvent) : CallSession :=
  events.foldl callStep s

/-- Session right after `initializeCall` creates the peer connection:
no remote description, empty buffer, nothing applied. -/
def initialCallSession : CallSession :=
  { pcCreated := true, hasRemoteDesc := false, buffer := [], applied := [] }

/-! ## Helper lemmas -/

theorem xor_two_pow_ne (x b : Nat) : x ^^^ 2 ^ b ≠ x := by
  intro h
  have h2 : x ^^^ (x ^^^ 2 ^ b) = x ^^^ x := congrArg (x ^^^ ·) h
  rw [← Nat.xor_assoc, Nat.xor_self, Nat.zero_xor] at h2
  exact absurd h2 (Nat.two_pow_pos b).ne'

/-- A bit flip leaves the length unchanged. -/
theorem IsBitFlip.length_eq {c c2 : List Nat} (h : IsBitFlip c c2) :
    c2.length = c.length := by
  obtain ⟨i, hi, b, hb, hset⟩ := h
  rw [hset, List.length_set]

/-- A bit flip changes the list. -/
theorem IsBitFlip.ne {c c2 : List Nat} (h : IsBitFlip c c2) : c2 ≠ c := by
  obtain ⟨i, hi, b, hb, hset⟩ := h
  intro heq
  have hset2 : c.set i ((c.get ⟨i, hi⟩) ^^^ 2 ^ b) = c := by rw [← hset, heq]
  have h3 := congrArg (fun l => l[i]?) hset2
  simp only [List.getElem?_set_self hi, List.getElem?_eq_getElem hi] at h3
  have h4 := Option.some_injective _ h3
  rw [List.get_eq_getElem] at h4
  exact xor_two_pow_ne _ b h4

/-- Regrouping of the demo ciphertext layout. -/
theorem demoEnc_group (k : Nat) (iv x : List Nat) :
    demoEnc k iv x = x ++ (x ++ (iv ++ [k])) := by
  simp [demoEnc, List.append_assoc]

theorem demoEnc_length (k : Nat) (iv x : List Nat) :
    (demoEnc k iv x).length = x.length + x.length + iv.length + 1 := by
  simp [demoEnc, List.length_append]
  omega

theorem demoEnc_take (k : Nat) (iv x : List Nat) :
    (demoEnc k iv x).take x.length = x := by
  rw [demoEnc_group]
  exact List.take_left x _

theorem demoEnc_drop (k : Nat) (iv x : List Nat) :
    (demoEnc k iv x).drop x.length = x ++ (iv ++ [k]) := by
  rw [demoEnc_group]
  exact List.drop_left x _

theorem demoDec_enc (k : Nat) (iv p : List Nat) :
    demoDec k iv (demoEnc k iv p) = some p := by
  have hm : ((demoEnc k iv p).length - (iv.length + 1)) / 2 = p.length := by
    rw [demoEnc_length]
    have h1 : p.length + p.length + iv.length + 1 - (iv.length + 1)
        = 2 * p.length := by omega
    rw [h1]
    exact Nat.mul_div_cancel_left p.length (by norm_num)
  unfold demoDec
  rw [hm, demoEnc_take]
  simp [demoEnc]

theorem demoDec_auth (k : Nat) (iv c p : List Nat)
    (h : demoDec k iv c = some p) : c = demoEnc k iv p := by
  unfold demoDec at h
  split_ifs at h with hcond
  have hp := Option.some_injective _ h
  rw [← hp]
  exact hcond

theorem demoEnc_iv_binding (k : Nat) (iv iv2 p q : List Nat)
    (hlen : iv.length = iv2.length) (heq : demoEnc k iv p = demoEnc k iv2 q) :
    iv = iv2 := by
  have hlp : p.length = q.length := by
    have h1 := congrArg List.length heq
    rw [demoEnc_length, demoEnc_length] at h1
    omega
  have hd : p ++ (iv ++ [k]) = q ++ (iv2 ++ [k]) := by
    have h1 := congrArg (List.drop p.length) heq
    rw [demoEnc_drop] at h1
    rw [hlp, demoEnc_drop] at h1
    exact h1
  have h2 : iv ++ [k] = iv2 ++ [k] := (List.append_inj hd hlp).2
  exact (List.append_inj h2 hlen).1

theorem demoEnc_flip_rejected (k : Nat) (iv p c2 : List Nat)
    (hflip : IsBitFlip (demoEnc k iv p) c2) (q : List Nat)
    (hc2 : c2 = demoEnc k iv q) : False := by
  obtain ⟨i, hi, b, hb, hset⟩ := hflip
  have hlen : q.length = p.length := by
    have h1 := congrArg List.length hc2
    rw [hset, List.length_set, demoEnc_length, demoEnc_length] at h1
    omega
  have hq : q = p := by
    rcases Nat.lt_or_ge i p.length with hip | hip
    · -- the flip hits the first copy; recover p and q from the second copy
      have e1 : c2.drop p.length = (demoEnc k iv p).drop p.length := by
        rw [hset]
        exact List.drop_set_of_lt _ _ hip
      have e2 : c2.drop p.length = q ++ (iv ++ [k]) := by
        rw [hc2, ← hlen, demoEnc_drop]
      have e3 : q ++ (iv ++ [k]) = p ++ (iv ++ [k]) := by
        rw [← e2, e1, demoEnc_drop]
      exact (List.append_inj e3 hlen).1
    · -- the flip misses the first copy; recover p and q from it
      have e1 : c2.take p.length = (demoEnc k iv p).take p.length := by
        rw [hset, List.set_take]
        apply List.set_eq_of_length_le
        rw [List.length_take]
        exact le_trans inf_le_left hip
      have e2 : c2.take p.length = q := by
        rw [hc2, ← hlen, demoEnc_take]
      rw [← e2, e1, demoEnc_take]
  exact IsBitFlip.ne ⟨i, hi, b, hb, hset⟩ (hq ▸ hc2)

theorem demo_ecdh_comm : ECDHComm demoCrypto := fun a b => Nat.add_comm a b

theorem demo_str_roundtrip : StrRoundTrip demoCrypto := by
  intro s
  show String.mk ((s.data.map Char.toNat).map Char.ofNat) = s
  rw [List.map_map]
  have h : ∀ l : List Char, l.map (Char.ofNat ∘ Char.toNat) = l := by
    intro l
    induction l with
    | nil => rfl
    | cons c t ih => simp [Function.comp, Char.ofNat_toNat, ih]
  rw [h]

theorem demo_aes_roundtrip : AesGcmRoundTrip demoCrypto :=
  fun k iv p => demoDec_enc k iv p

theorem demo_aes_auth : AesGcmAuth demoCrypto :=
  fun k iv c p h => demoDec_auth k iv c p h

theorem demo_aes_iv_binding : AesGcmIvBinding demoCrypto :=
  fun k iv iv2 p q h1 h2 => demoEnc_iv_binding k iv iv2 p q h1 h2

theorem demo_aes_flip_rejected : AesGcmFlipRejected demoCrypto :=
  fun k iv p c2 hf q heq => demoEnc_flip_rejected k iv p c2 hf q heq

/-! ## Claim theorems: hybrid cipher -/

/-- C1: for every plaintext string P and every P-256 ECDH identity key pair K,
encrypting P to K's public key with `encryptMessage` and then decrypting the
resulting envelope with `decryptMessage` while K is the stored key pair
returns exactly P.  The hypotheses are the platform contracts of the
WebCrypto primitives: ECDH commutativity, AES-GCM round-trip, and the UTF-8
string round-trip. -/
theorem message_encrypt_decrypt_roundtrip (C : CryptoPrimitives)
    (hecdh : ECDHComm C) (hrt : AesGcmRoundTrip C) (hstr : StrRoundTrip C)
    (plaintext : String) (identityPriv ephemeralPriv : C.Priv) (iv : List Nat) :
    decryptMessage C
      (encryptMessage C plaintext (C.pubOf identityPriv) ephemeralPriv iv)
      (some identityPriv) = some plaintext := by
  show (C.aesGcmDecrypt (deriveAESKey C identityPriv (C.pubOf ephemeralPriv)) iv
      (C.aesGcmEncrypt (deriveAESKey C ephemeralPriv (C.pubOf identityPriv)) iv
        (C.strEncode plaintext))).map C.strDecode = some plaintext
  have hk : deriveAESKey C identityPriv (C.pubOf ephemeralPriv)
      = deriveAESKey C ephemeralPriv (C.pubOf identityPriv) := by
    unfold deriveAESKey
    rw [hecdh identityPriv ephemeralPriv]
  rw [hk, hrt]
  simp [hstr plaintext]

/-- The round-trip theorem exercised on the executable primitives at
closed inputs. -/
theorem message_encrypt_decrypt_roundtrip_demo :
    decryptMessage demoCrypto
      (encryptMessage demoCrypto "hello" (demoCrypto.pubOf (5 : Nat)) (3 : Nat)
        (List.replicate 12 0)) (some (5 : Nat)) = some "hello" :=
  message_encrypt_decrypt_roundtrip demoCrypto demo_ecdh_comm demo_aes_roundtrip
    demo_str_roundtrip "hello" (5 : Nat) (3 : Nat) (List.replicate 12 0)

/-- C2: for every envelope produced by `encryptMessage`, flipping any single
bit of its ciphertext or of its IV makes `decryptMessage` fail with an
authenticated-decryption failure (`none`) — it never returns corrupted
plaintext.  The hypotheses are the ideal-AEAD integrity contracts of
AES-GCM (authenticity, single-bit tamper rejection, nonce binding) plus
ECDH commutativity. -/
theorem decryptMessage_rejects_tampered_envelope (C : CryptoPrimitives)
    (hecdh : ECDHComm C) (hauth : AesGcmAuth C) (hflip : AesGcmFlipRejected C)
    (hivb : AesGcmIvBinding C) (plaintext : String)
    (identityPriv ephemeralPriv : C.Priv) (iv : List Nat)
    (e2 : EncryptedEnvelope C)
    (htamper : TamperedEnvelope C
      (encryptMessage C plaintext (C.pubOf identityPriv) ephemeralPriv iv) e2) :
    decryptMessage C e2 (some identityPriv) = none := by
  obtain ⟨hpub, hcase⟩ := htamper
  have hk : deriveAESKey C identityPriv e2.ephemeralPublicKey
      = deriveAESKey C ephemeralPriv (C.pubOf identityPriv) := by
    rw [hpub]
    show deriveAESKey C identityPriv (C.pubOf ephemeralPriv) = _
    unfold deriveAESKey
    rw [hecdh identityPriv ephemeralPriv]
  show (C.aesGcmDecrypt (deriveAESKey C identityPriv e2.ephemeralPublicKey)
      e2.iv e2.ciphertext).map C.strDecode = none
  rw [hk]
  rcases hcase with ⟨hfl, hiv⟩ | ⟨hfl, hct⟩
  · -- a bit of the ciphertext was flipped
    have hiv2 : e2.iv = iv := hiv
    rw [hiv2]
    rcases hdec : C.aesGcmDecrypt
        (deriveAESKey C ephemeralPriv (C.pubOf identityPriv)) iv e2.ciphertext
      with _ | r
    · simp
    · exfalso
      exact hflip _ iv (C.strEncode plaintext) e2.ciphertext hfl r
        (hauth _ _ _ _ hdec)
  · -- a bit of the IV was flipped
    rw [hct]
    rcases hdec : C.aesGcmDecrypt
        (deriveAESKey C ephemeralPriv (C.pubOf identityPriv)) e2.iv
        ((encryptMessage C plaintext (C.pubOf identityPriv) ephemeralPriv
          iv).ciphertext)
      with _ | r
    · simp
    · exfalso
      have h2 : iv = e2.iv := by
        apply hivb _ iv e2.iv (C.strEncode plaintext) r
        · exact (IsBitFlip.length_eq hfl).symm
        · exact hauth _ _ _ _ hdec
      exact (IsBitFlip.ne hfl) h2.symm

/-- The tamper-rejection theorem exercised on the executable primitives:
the closed envelope below is the encryption of "hi" with its first
ciphertext byte's lowest bit flipped, and decryption fails. -/
theorem decryptMessage_rejects_tampered_envelope_demo :
    decryptMessage demoCrypto
      ⟨demoCrypto.pubOf (3 : Nat), List.replicate 12 0,
        [105, 105, 104, 105, 0, 0, 0, 0, 0, 0, 0, 0, 0, 0, 0, 0, 39]⟩
      (some (5 : Nat)) = none :=
  decryptMessage_rejects_tampered_envelope demoCrypto demo_ecdh_comm
    demo_aes_auth demo_aes_flip_rejected demo_aes_iv_binding "hi" (5 : Nat)
    (3 : Nat) (List.replicate 12 0) _
    ⟨rfl, Or.inl ⟨⟨0, by decide, 0, by decide, by decide⟩, rfl⟩⟩

/-- C8 counterexample: `encryptFile` does NOT run the ECDH shared secret
through HKDF the way `encryptMessage` does — it imports the shared bits
directly as the AES-GCM key.  At a closed input the envelope it produces
differs from the one the spec's HKDF description (`encryptFileSpecHkdf`)
would produce. -/
theorem encryptFile_differs_from_hkdf_scheme :
    (encryptFile demoCrypto [1, 2] (demoCrypto.pubOf (5 : Nat)) (3 : Nat)
        (List.replicate 12 0)).encryptedData ≠
      (encryptFileSpecHkdf demoCrypto [1, 2] (demoCrypto.pubOf (5 : Nat))
        (3 : Nat) (List.replicate 12 0)).encryptedData := by
  decide

/-- C8 (amended): file envelopes use the same ephemeral-ECDH + AES-GCM
hybrid structure as message envelopes, except that the AES-GCM key is the
raw ECDH shared secret imported directly — there is no HKDF step — and
`decryptFile` mirrors exactly that derivation, so a file round-trips. -/
theorem file_encrypt_decrypt_roundtrip (C : CryptoPrimitives)
    (hecdh : ECDHComm C) (hrt : AesGcmRoundTrip C) (fileBuffer : List Nat)
    (identityPriv ephemeralPriv : C.Priv) (iv : List Nat) :
    (encryptFile C fileBuffer (C.pubOf identityPriv) ephemeralPriv
          iv).encryptedData
        = C.aesGcmEncrypt (C.aesKeyOfRawSecret
            (C.deriveBits ephemeralPriv (C.pubOf identityPriv))) iv fileBuffer
      ∧ decryptFile C
          (encryptFile C fileBuffer (C.pubOf identityPriv) ephemeralPriv
            iv).encryptedData
          (encryptFile C fileBuffer (C.pubOf identityPriv) ephemeralPriv
            iv).ephemeralPublicKey
          (encryptFile C fileBuffer (C.pubOf identityPriv) ephemeralPriv
            iv).iv
          (some identityPriv) = some fileBuffer := by
  refine ⟨rfl, ?_⟩
  show C.aesGcmDecrypt
      (C.aesKeyOfRawSecret (C.deriveBits identityPriv (C.pubOf ephemeralPriv)))
      iv (C.aesGcmEncrypt
        (C.aesKeyOfRawSecret (C.deriveBits ephemeralPriv (C.pubOf identityPriv)))
        iv fileBuffer) = some fileBuffer
  rw [hecdh identityPriv ephemeralPriv]
  exact hrt _ _ _

/-- The file round-trip theorem exercised on the executable primitives. -/
theorem file_encrypt_decrypt_roundtrip_demo :
    (encryptFile demoCrypto [9, 7] (demoCrypto.pubOf (5 : Nat)) (3 : Nat)
          (List.replicate 12 0)).encryptedData
        = demoCrypto.aesGcmEncrypt (demoCrypto.aesKeyOfRawSecret
            (demoCrypto.deriveBits (3 : Nat) (demoCrypto.pubOf (5 : Nat))))
            (List.replicate 12 0) [9, 7]
      ∧ decryptFile demoCrypto
          (encryptFile demoCrypto [9, 7] (demoCrypto.pubOf (5 : Nat)) (3 : Nat)
            (List.replicate 12 0)).encryptedData
          (encryptFile demoCrypto [9, 7] (demoCrypto.pubOf (5 : Nat)) (3 : Nat)
            (List.replicate 12 0)).ephemeralPublicKey
          (encryptFile demoCrypto [9, 7] (demoCrypto.pubOf (5 : Nat)) (3 : Nat)
            (List.replicate 12 0)).iv
          (some (5 : Nat)) = some [9, 7] :=
  file_encrypt_decrypt_roundtrip demoCrypto demo_ecdh_comm demo_aes_roundtrip
    [9, 7] (5 : Nat) (3 : Nat) (List.replicate 12 0)

/-! ## Claim theorems: call signaling (ICE candidate buffering) -/

/-- The drain loop moves the whole buffer, in order, onto the applied
sequence. -/
theorem drainBuffer_eq (applied buffer : List Nat) :
    drainBuffer applied buffer = (applied ++ buffer, []) := by
  induction buffer generalizing applied with
  | nil => simp [drainBuffer]
  | cons c rest ih => simp [drainBuffer, ih]

/-- Before a remote description is set, received candidates only
accumulate in the buffer, in arrival order; none is applied. -/
theorem runCall_buffer_phase (cs : List Nat) (s : CallSession)
    (hpc : s.pcCreated = true) (hrd : s.hasRemoteDesc = false) :
    runCall s (cs.map CallEvent.recvCandidate)
      = { s with buffer := s.buffer ++ cs } := by
  induction cs generalizing s with
  | nil => simp [runCall]
  | cons c rest ih =>
    show runCall (callStep s (CallEvent.recvCandidate c))
        (rest.map CallEvent.recvCandidate) = _
    rw [show callStep s (CallEvent.recvCandidate c)
        = { s with buffer := s.buffer ++ [c] } by
      simp [callStep, handleIceCandidate, hpc, hrd]]
    rw [ih { s with buffer := s.buffer ++ [c] } hpc hrd]
    simp

/-- After a remote description is set, received candidates are applied
immediately, in arrival order. -/
theorem runCall_applied_phase (cs : List Nat) (s : CallSession)
    (hpc : s.pcCreated = true) (hrd : s.hasRemoteDesc = true) :
    runCall s (cs.map CallEvent.recvCandidate)
      = { s with applied := s.applied ++ cs } := by
  induction cs generalizing s with
  | nil => simp [runCall]
  | cons c rest ih =>
    show runCall (callStep s (CallEvent.recvCandidate c))
        (rest.map CallEvent.recvCandidate) = _
    rw [show callStep s (CallEvent.recvCandidate c)
        = { s with applied := s.applied ++ [c] } by
      simp [callStep, handleIceCandidate, hpc, hrd]]
    rw [ih { s with applied := s.applied ++ [c] } hpc hrd]
    simp

/-- C6: in a call session, every ICE candidate received before the peer
connection has a remote description is appended to the buffer, and once
the remote description is set the buffered candidates are drained and
applied in their original arrival order, each exactly once; candidates
received afterwards are applied directly.  After an arbitrary trace
`before … setRemoteDesc … after` the applied sequence is exactly
`before ++ after` (no drops, no reordering, no duplicates) and the buffer
is empty. -/
theorem ice_candidates_buffered_then_drained_in_order
    (before after : List Nat) :
    runCall initialCallSession
        (before.map CallEvent.recvCandidate ++ CallEvent.setRemoteDesc ::
          after.map CallEvent.recvCandidate)
      = { pcCreated := true, hasRemoteDesc := true, buffer := [],
          applied := before ++ after } := by
  show List.foldl callStep initialCallSession _ = _
  rw [List.foldl_append]
  rw [show List.foldl callStep initialCallSession
        (before.map CallEvent.recvCandidate)
      = { initialCallSession with buffer := before } by
    have h := runCall_buffer_phase before initialCallSession rfl rfl
    simpa [runCall, initialCallSession] using h]
  rw [List.foldl_cons]
  rw [show callStep { initialCallSession with buffer := before }
        CallEvent.setRemoteDesc
      = { pcCreated := true, hasRemoteDesc := true, buffer := [],
          applied := before } by
    simp [callStep, applyRemoteDescription, processBufferedCandidates,
      initialCallSession, drainBuffer_eq]]
  have h2 := runCall_applied_phase after
    { pcCreated := true, hasRemoteDesc := true, buffer := [],
      applied := before } rfl rfl
  simpa [runCall] using h2

/-! ## Claim theorems: send_message -/

/-- C3 counterexample: a `send_message` whose envelope is malformed
(missing iv), sent where NO accepted friendship exists, is answered with
the `invalidPayload` error — not `unauthorized` — because the handler
validates the payload before it checks the friendship.  So "no accepted
friendship implies an Unauthorized acknowledgement" fails as stated (the
store is still left unchanged). -/
theorem sendMessage_nonfriend_can_get_invalid_payload :
    (handleSendMessage ⟨[], [], []⟩ 1
          ⟨some 2, some ⟨some "epk", none, some "ct"⟩, none, none⟩ 5).2.1
        = SendAck.invalidPayload
      ∧ isAcceptedFriendship ([] : List Friendship) 1 2 = false
      ∧ SendAck.invalidPayload ≠ SendAck.unauthorized := by
  refine ⟨?_, ?_, ?_⟩ <;> decide

/-- C3 (amended): a `send_message` between users with no accepted
friendship (in either orientation) is rejected with no message persisted
and nothing emitted; when the payload is well-formed the acknowledgement
is the `unauthorized` error ("Not friends with this user") — a malformed
payload is rejected earlier as `invalidPayload`.  The whole server state
is returned unchanged. -/
theorem sendMessage_nonfriend_unauthorized (st : ServerState)
    (senderId : UserId) (data : SendData) (newId : MsgId)
    (recipientId : UserId) (fr : EncPayload) (epk iv ct : String)
    (hrec : data.recipientId = some recipientId)
    (hfr : (data.encryptedForRecipient <|> data.encrypted) = some fr)
    (hepk : fr.ephemeralPublicKey = some epk)
    (hiv : fr.iv = some iv)
    (hct : fr.ciphertext = some ct)
    (hnf : isAcceptedFriendship st.friendships senderId recipientId = false) :
    handleSendMessage st senderId data newId
      = (st, SendAck.unauthorized, []) := by
  simp [handleSendMessage, hrec, hfr, hepk, hiv, hct, hnf]

/-- The unauthorized-rejection theorem exercised at closed inputs: a
well-formed message between strangers is refused and the state is
untouched. -/
theorem sendMessage_nonfriend_unauthorized_demo :
    handleSendMessage ⟨[], [⟨1, 2, "pending"⟩], []⟩ 1
        ⟨some 2, some ⟨some "epk", some "iv", some "ct"⟩, none, none⟩ 5
      = (⟨[], [⟨1, 2, "pending"⟩], []⟩, SendAck.unauthorized, []) :=
  sendMessage_nonfriend_unauthorized ⟨[], [⟨1, 2, "pending"⟩], []⟩ 1
    ⟨some 2, some ⟨some "epk", some "iv", some "ct"⟩, none, none⟩ 5 2
    ⟨some "epk", some "iv", some "ct"⟩ "epk" "iv" "ct"
    rfl rfl rfl rfl rfl (by decide)

/-- C4: for every valid `send_message` from a user to an accepted friend,
exactly one Message is appended to the store with `read=false`; its
`delivered` flag is true exactly when the recipient had at least one live
connection at send time; when there are live connections the new message
(still carrying `delivered=false`, as emitted before the flag flip) is
pushed to every one of them, and when there are none nothing is emitted
(no push retry exists — the handler produces no other effect); in both
cases the persisted (possibly delivered) Message is returned to the sender
as the success acknowledgement.  Friendship store and connection registry
are untouched. -/
theorem sendMessage_friend_delivery (st : ServerState) (senderId : UserId)
    (data : SendData) (newId : MsgId) (recipientId : UserId)
    (fr : EncPayload) (epk iv ct : String)
    (hrec : data.recipientId = some recipientId)
    (hfr : (data.encryptedForRecipient <|> data.encrypted) = some fr)
    (hepk : fr.ephemeralPublicKey = some epk)
    (hiv : fr.iv = some iv)
    (hct : fr.ciphertext = some ct)
    (hf : isAcceptedFriendship st.friendships senderId recipientId = true) :
    ∃ m : Msg,
      (handleSendMessage st senderId data newId).1.messages
          = st.messages ++ [m]
        ∧ (handleSendMessage st senderId data newId).1.friendships
          = st.friendships
        ∧ (handleSendMessage st senderId data newId).1.userSockets
          = st.userSockets
        ∧ m.senderId = senderId
        ∧ m.recipientId = recipientId
        ∧ m.read = false
        ∧ m.delivered = !(liveSockets st.userSockets recipientId).isEmpty
        ∧ (handleSendMessage st senderId data newId).2.2
          = (liveSockets st.userSockets recipientId).map
              (fun s => Emit.newMessage s { m with delivered := false })
        ∧ (handleSendMessage st senderId data newId).2.1 = SendAck.success m := by
  rcases hl : liveSockets st.userSockets recipientId with _ | ⟨s0, rest⟩
  · refine ⟨⟨newId, senderId, recipientId, ⟨epk, iv, ct⟩,
        data.encryptedForSender, ⟨epk, iv, ct⟩, false, false, []⟩,
        ?_, ?_, ?_, ?_, ?_, ?_, ?_, ?_, ?_⟩ <;>
      simp [handleSendMessage, hrec, hfr, hepk, hiv, hct, hf, hl]
  · refine ⟨⟨newId, senderId, recipientId, ⟨epk, iv, ct⟩,
        data.encryptedForSender, ⟨epk, iv, ct⟩, true, false, []⟩,
        ?_, ?_, ?_, ?_, ?_, ?_, ?_, ?_, ?_⟩ <;>
      simp [handleSendMessage, hrec, hfr, hepk, hiv, hct, hf, hl]

/-- The delivery theorem exercised at closed inputs: recipient 2 is online
on two devices. -/
theorem sendMessage_friend_delivery_demo :
    ∃ m : Msg,
      (handleSendMessage ⟨[], [⟨1, 2, "accepted"⟩], [(2, [20, 21])]⟩ 1
            ⟨some 2, some ⟨some "epk", some "iv", some "ct"⟩, none, none⟩
            7).1.messages
          = ([] : List Msg) ++ [m]
        ∧ (handleSendMessage ⟨[], [⟨1, 2, "accepted"⟩], [(2, [20, 21])]⟩ 1
            ⟨some 2, some ⟨some "epk", some "iv", some "ct"⟩, none, none⟩
            7).1.friendships = [⟨1, 2, "accepted"⟩]
        ∧ (handleSendMessage ⟨[], [⟨1, 2, "accepted"⟩], [(2, [20, 21])]⟩ 1
            ⟨some 2, some ⟨some "epk", some "iv", some "ct"⟩, none, none⟩
            7).1.userSockets = [(2, [20, 21])]
        ∧ m.senderId = 1
        ∧ m.recipientId = 2
        ∧ m.read = false
        ∧ m.delivered = !(liveSockets [(2, [20, 21])] 2).isEmpty
        ∧ (handleSendMessage ⟨[], [⟨1, 2, "accepted"⟩], [(2, [20, 21])]⟩ 1
            ⟨some 2, some ⟨some "epk", some "iv", some "ct"⟩, none, none⟩
            7).2.2
          = (liveSockets [(2, [20, 21])] 2).map
              (fun s => Emit.newMessage s { m with delivered := false })
        ∧ (handleSendMessage ⟨[], [⟨1, 2, "accepted"⟩], [(2, [20, 21])]⟩ 1
            ⟨some 2, some ⟨some "epk", some "iv", some "ct"⟩, none, none⟩
            7).2.1 = SendAck.success m :=
  sendMessage_friend_delivery ⟨[], [⟨1, 2, "accepted"⟩], [(2, [20, 21])]⟩ 1
    ⟨some 2, some ⟨some "epk", some "iv", some "ct"⟩, none, none⟩ 7 2
    ⟨some "epk", some "iv", some "ct"⟩ "epk" "iv" "ct"
    rfl rfl rfl rfl rfl (by decide)

/-- C10: every Message persisted by the `send_message` handler carries the
legacy `encrypted` field equal, component by component, to its
`encryptedForRecipient` envelope; the persisted recipient envelope is
exactly the validated wire payload, which — by the `encryptedForRecipient
|| encrypted` fallback — is the legacy `encrypted` input whenever the
request omits `encryptedForRecipient`. -/
theorem sendMessage_legacy_encrypted_mirror (st : ServerState)
    (senderId : UserId) (data : SendData) (newId : MsgId)
    (recipientId : UserId) (fr : EncPayload) (epk iv ct : String)
    (hrec : data.recipientId = some recipientId)
    (hfr : (data.encryptedForRecipient <|> data.encrypted) = some fr)
    (hepk : fr.ephemeralPublicKey = some epk)
    (hiv : fr.iv = some iv)
    (hct : fr.ciphertext = some ct)
    (hf : isAcceptedFriendship st.friendships senderId recipientId = true) :
    ∃ m : Msg,
      (handleSendMessage st senderId data newId).1.messages
          = st.messages ++ [m]
        ∧ m.encrypted = m.encryptedForRecipient
        ∧ m.encryptedForRecipient = ⟨epk, iv, ct⟩
        ∧ (data.encryptedForRecipient = none → data.encrypted = some fr) := by
  have hleg : data.encryptedForRecipient = none → data.encrypted = some fr := by
    intro hnone
    rw [hnone] at hfr
    simpa using hfr
  rcases hl : liveSockets st.userSockets recipientId with _ | ⟨s0, rest⟩
  · refine ⟨⟨newId, senderId, recipientId, ⟨epk, iv, ct⟩,
        data.encryptedForSender, ⟨epk, iv, ct⟩, false, false, []⟩,
        ?_, rfl, rfl, hleg⟩
    simp [handleSendMessage, hrec, hfr, hepk, hiv, hct, hf, hl]
  · refine ⟨⟨newId, senderId, recipientId, ⟨epk, iv, ct⟩,
        data.encryptedForSender, ⟨epk, iv, ct⟩, true, false, []⟩,
        ?_, rfl, rfl, hleg⟩
    simp [handleSendMessage, hrec, hfr, hepk, hiv, hct, hf, hl]

/-- The legacy-mirror theorem exercised at closed inputs: the request
supplies only the legacy `encrypted` field, which becomes the recipient
envelope, and the persisted `encrypted` field mirrors it. -/
theorem sendMessage_legacy_encrypted_mirror_demo :
    ∃ m : Msg,
      (handleSendMessage ⟨[], [⟨1, 2, "accepted"⟩], []⟩ 1
            ⟨some 2, none, none, some ⟨some "epk", some "iv", some "ct"⟩⟩
            7).1.messages
          = ([] : List Msg) ++ [m]
        ∧ m.encrypted = m.encryptedForRecipient
        ∧ m.encryptedForRecipient = ⟨"epk", "iv", "ct"⟩
        ∧ ((none : Option EncPayload) = none →
            (some ⟨some "epk", some "iv", some "ct"⟩ : Option EncPayload)
              = some ⟨some "epk", some "iv", some "ct"⟩) :=
  sendMessage_legacy_encrypted_mirror ⟨[], [⟨1, 2, "accepted"⟩], []⟩ 1
    ⟨some 2, none, none, some ⟨some "epk", some "iv", some "ct"⟩⟩ 7 2
    ⟨some "epk", some "iv", some "ct"⟩ "epk" "iv" "ct"
    rfl rfl rfl rfl rfl (by decide)

/-! ## Claim theorems: reactions -/

/-- Toggling the same (userId, emoji) pair twice returns the reaction
list to a permutation of itself, provided the pair occurs at most once
(the invariant the toggle maintains). -/
theorem toggle_twice_perm (rs : List Reaction) (u : UserId) (e : String)
    (honce : rs.countP (fun r => r.userId == u && r.emoji == e) ≤ 1) :
    (toggleReaction (toggleReaction rs u e) u e).Perm rs := by
  by_cases h1 : rs.any (fun r => r.userId == u && r.emoji == e) = true
  · unfold toggleReaction
    rw [if_pos h1]
    have h2 : ((rs.filter fun r => !(r.userId == u && r.emoji == e)).any
        (fun r => r.userId == u && r.emoji == e)) = false := by
      rw [List.any_eq_false]
      intro x hx
      rw [List.mem_filter] at hx
      have hx2 := hx.2
      simp only [Bool.not_eq_true'] at hx2
      simp [hx2]
    rw [if_neg (by rw [h2]; exact Bool.false_ne_true)]
    have h3 : rs.countP (fun r => r.userId == u && r.emoji == e) = 1 := by
      have hpos : 0 < rs.countP (fun r => r.userId == u && r.emoji == e) :=
        List.countP_pos_iff.mpr (List.any_eq_true.mp h1)
      omega
    have h4 : rs.filter (fun r => r.userId == u && r.emoji == e) = [⟨e, u⟩] := by
      have hlen : (rs.filter (fun r => r.userId == u && r.emoji == e)).length
          = 1 := by
        rw [← List.countP_eq_length_filter]
        exact h3
      rcases hfl : rs.filter (fun r => r.userId == u && r.emoji == e)
        with _ | ⟨⟨em, us⟩, rest⟩
      · rw [hfl] at hlen
        simp at hlen
      · rw [hfl] at hlen
        simp only [List.length_cons] at hlen
        have hrest : rest = [] := List.length_eq_zero.mp (by omega)
        subst hrest
        have hr0 : (⟨em, us⟩ : Reaction)
            ∈ rs.filter (fun r => r.userId == u && r.emoji == e) := by
          rw [hfl]
          simp
        rw [List.mem_filter] at hr0
        have hp := hr0.2
        simp only [Bool.and_eq_true, beq_iff_eq] at hp
        rw [hfl, hp.1, hp.2]
    rw [← h4]
    exact (List.perm_append_comm).trans (List.filter_append_perm _ rs)
  · unfold toggleReaction
    rw [if_neg h1]
    have h2 : ((rs ++ [(⟨e, u⟩ : Reaction)]).any
        (fun r => r.userId == u && r.emoji == e)) = true := by
      rw [List.any_eq_true]
      exact ⟨⟨e, u⟩, by simp, by simp⟩
    rw [if_pos h2]
    have hfalse : rs.any (fun r => r.userId == u && r.emoji == e) = false :=
      Bool.eq_false_iff.mpr h1
    have h3 : rs.filter (fun r => !(r.userId == u && r.emoji == e)) = rs := by
      rw [List.filter_eq_self]
      intro a ha
      have hna := List.any_eq_false.mp hfalse a ha
      simp only [Bool.not_eq_true']
      exact Bool.eq_false_iff.mpr hna
    rw [List.filter_append, h3]
    have h5 : ([(⟨e, u⟩ : Reaction)]).filter
        (fun r => !(r.userId == u && r.emoji == e)) = [] := by simp
    rw [h5, List.append_nil]

/-- The `add_reaction` handler's effect on the message store, when the
message is found: every entry with that id gets the toggled reaction
list. -/
theorem handleAddReaction_messages (st : ServerState) (u : UserId)
    (mid : MsgId) (e : String) (rid : UserId) (m : Msg)
    (hfind : st.messages.find? (fun x => x.id == mid) = some m) :
    (handleAddReaction st u mid e rid).1.messages
      = st.messages.map (fun x =>
          if x.id = mid then { x with reactions := toggleReaction m.reactions u e }
          else x) := by
  simp [handleAddReaction, hfind]

/-- Updating reactions by id preserves `find?` by id. -/
theorem find?_update_map (msgs : List Msg) (mid : MsgId) (m : Msg)
    (rs : List Reaction)
    (hfind : msgs.find? (fun x => x.id == mid) = some m) :
    (msgs.map (fun x => if x.id = mid then { x with reactions := rs } else x)).find?
        (fun x => x.id == mid) = some { m with reactions := rs } := by
  rw [List.find?_map]
  have hpred : ((fun x : Msg => x.id == mid) ∘ fun x =>
      if x.id = mid then { x with reactions := rs } else x)
      = fun x : Msg => x.id == mid := by
    funext x
    by_cases hx : x.id = mid <;> simp [hx]
  rw [hpred, hfind]
  have hid : m.id = mid := by
    have hpm := List.find?_some hfind
    simpa using hpm
  simp [hid]

/-- Two successive by-id reaction updates collapse to the second one. -/
theorem update_map_twice (msgs : List Msg) (mid : MsgId)
    (rs1 rs2 : List Reaction) :
    ((msgs.map (fun x => if x.id = mid then { x with reactions := rs1 } else x)).map
        (fun x => if x.id = mid then { x with reactions := rs2 } else x))
      = msgs.map (fun x => if x.id = mid then { x with reactions := rs2 } else x) := by
  rw [List.map_map]
  congr 1
  funext x
  by_cases hx : x.id = mid <;> simp [hx]

/-- C5: applying the `add_reaction` toggle twice with the same
(messageId, userId, emoji) triple returns the message's reaction set to
its original state (as a set — the re-added pair is appended at the tail,
so only the position within the list may differ): the first application
removes the pair if present and appends it otherwise, and the second
application inverts that change; no other message is touched.  The
hypothesis that the pair occurs at most once is the invariant the handler
itself maintains (it only appends when the pair is absent, and messages
are created with no reactions). -/
theorem addReaction_double_toggle (st : ServerState) (userId : UserId)
    (messageId : MsgId) (emoji : String) (recipientId recipientId2 : UserId)
    (m : Msg)
    (hfind : st.messages.find? (fun x => x.id == messageId) = some m)
    (honce : m.reactions.countP
        (fun r => r.userId == userId && r.emoji == emoji) ≤ 1) :
    ∃ rs2 : List Reaction,
      rs2.Perm m.reactions
        ∧ (handleAddReaction
              (handleAddReaction st userId messageId emoji recipientId).1
              userId messageId emoji recipientId2).1.messages
          = st.messages.map (fun x =>
              if x.id = messageId then { x with reactions := rs2 } else x) := by
  refine ⟨toggleReaction (toggleReaction m.reactions userId emoji) userId emoji,
    toggle_twice_perm m.reactions userId emoji honce, ?_⟩
  have h1 := handleAddReaction_messages st userId messageId emoji recipientId
    m hfind
  have hfind2 : (handleAddReaction st userId messageId emoji
      recipientId).1.messages.find? (fun x => x.id == messageId)
      = some { m with reactions := toggleReaction m.reactions userId emoji } := by
    rw [h1]
    exact find?_update_map _ _ _ _ hfind
  have h2 := handleAddReaction_messages
    (handleAddReaction st userId messageId emoji recipientId).1 userId
    messageId emoji recipientId2 _ hfind2
  rw [h2, h1, update_map_twice]

/-- The double-toggle theorem exercised at closed inputs: message 1
already carries the reaction ("x", 9); user 9 toggles "x" twice. -/
theorem addReaction_double_toggle_demo :
    ∃ rs2 : List Reaction,
      rs2.Perm [⟨"x", 9⟩]
        ∧ (handleAddReaction
              (handleAddReaction
                ⟨[⟨1, 7, 4, ⟨"e", "i", "c"⟩, none, ⟨"e", "i", "c"⟩, false,
                  false, [⟨"x", 9⟩]⟩], [], []⟩ 9 1 "x" 4).1
              9 1 "x" 4).1.messages
          = [⟨1, 7, 4, ⟨"e", "i", "c"⟩, none, ⟨"e", "i", "c"⟩, false, false,
              [⟨"x", 9⟩]⟩].map (fun x =>
              if x.id = 1 then { x with reactions := rs2 } else x) :=
  addReaction_double_toggle
    ⟨[⟨1, 7, 4, ⟨"e", "i", "c"⟩, none, ⟨"e", "i", "c"⟩, false, false,
      [⟨"x", 9⟩]⟩], [], []⟩ 9 1 "x" 4 4
    ⟨1, 7, 4, ⟨"e", "i", "c"⟩, none, ⟨"e", "i", "c"⟩, false, false,
      [⟨"x", 9⟩]⟩ rfl (by decide)

/-! ## Claim theorems: connection / presence -/

/-- C7 counterexample: user 1 already has a live connection (socket 10);
a second device connects (socket 11) and the accepted friend (user 2,
online with socket 20) is still sent an "online" broadcast — the handler
calls `notifyFriendsOfStatus` unconditionally on every connection-open,
not only on the user's first connection as claimed. -/
theorem connection_second_device_still_broadcasts :
    (handleConnection ⟨[], [⟨1, 2, "accepted"⟩], [(1, [10]), (2, [20])]⟩
          1 11).2
        = [Emit.friendStatus 20 1 "online"]
      ∧ liveSockets [(1, [10]), (2, [20])] 1 ≠ [] := by
  refine ⟨?_, ?_⟩ <;> decide

/-- Adding a socket for `u` rewrites exactly `u`'s registry entry with the
set-insert of the socket id. -/
theorem socketsOf_addSocket_self (reg : List (UserId × List SocketId))
    (u : UserId) (s : SocketId) :
    socketsOf (addSocket reg u s) u
      = (socketsOf reg u).map (fun l => if s ∈ l then l else l ++ [s]) := by
  induction reg with
  | nil => simp [socketsOf, addSocket]
  | cons e rest ih =>
    by_cases he : e.1 = u
    · simp [socketsOf, addSocket, List.find?_cons, he]
    · simp only [socketsOf, addSocket, List.map_cons] at ih ⊢
      rw [if_neg he]
      rw [List.find?_cons, List.find?_cons]
      have hbeq : (e.1 == u) = false := by
        simp [he]
      rw [hbeq]
      exact ih

/-- A user with no registry entry gets one (with an empty socket set) from
the `userSockets.set(userId, new Set())` step. -/
theorem socketsOf_append_fresh (reg : List (UserId × List SocketId))
    (u : UserId) (h : socketsOf reg u = none) :
    socketsOf (reg ++ [(u, [])]) u = some [] := by
  unfold socketsOf at h ⊢
  rw [List.find?_append]
  have h2 : reg.find? (fun e => e.1 == u) = none := by
    rcases hf : reg.find? (fun e => e.1 == u) with _ | e
    · exact hf
    · rw [hf] at h
      simp at h
  rw [h2]
  simp [List.find?_cons]

/-- Membership in a presence broadcast: exactly the live sockets of the
other party of each accepted friendship involving the user receive the
status event. -/
theorem mem_notifyFriendsOfStatus (st : ServerState) (u : UserId)
    (status : String) (sock : SocketId) (u2 : UserId) (status2 : String) :
    Emit.friendStatus sock u2 status2 ∈ notifyFriendsOfStatus st u status
      ↔ (u2 = u ∧ status2 = status ∧ ∃ f ∈ st.friendships,
          f.status = "accepted"
            ∧ ((f.requester = u ∧ sock ∈ liveSockets st.userSockets f.recipient)
              ∨ (f.requester ≠ u ∧ f.recipient = u
                ∧ sock ∈ liveSockets st.userSockets f.requester))) := by
  unfold notifyFriendsOfStatus
  rw [List.mem_flatMap]
  constructor
  · rintro ⟨f, hf, hmem⟩
    rw [List.mem_filter] at hf
    rw [List.mem_map] at hmem
    obtain ⟨s0, hs0, heq⟩ := hmem
    obtain ⟨h1, h2, h3⟩ : s0 = sock ∧ u = u2 ∧ status = status2 := by
      simpa using heq
    subst h1
    subst h2
    subst h3
    have hp := hf.2
    simp only [Bool.or_eq_true, Bool.and_eq_true, beq_iff_eq] at hp
    refine ⟨rfl, rfl, f, hf.1, ?_⟩
    by_cases hreq : f.requester = u
    · rw [if_pos hreq] at hs0
      exact ⟨hp.elim And.right And.right, Or.inl ⟨hreq, hs0⟩⟩
    · rw [if_neg hreq] at hs0
      have hr : f.recipient = u ∧ f.status = "accepted" :=
        hp.resolve_left (fun h => hreq h.1)
      exact ⟨hr.2, Or.inr ⟨hreq, hr.1, hs0⟩⟩
  · rintro ⟨rfl, rfl, f, hfmem, hacc, hcase⟩
    rcases hcase with ⟨hreq, hs⟩ | ⟨hreq, hrecip, hs⟩
    · refine ⟨f, ?_, ?_⟩
      · rw [List.mem_filter]
        exact ⟨hfmem, by simp [hreq, hacc]⟩
      · rw [List.mem_map]
        exact ⟨sock, by rw [if_pos hreq]; exact hs, rfl⟩
    · refine ⟨f, ?_, ?_⟩
      · rw [List.mem_filter]
        exact ⟨hfmem, by simp [hrecip, hacc]⟩
      · rw [List.mem_map]
        exact ⟨sock, by rw [if_neg hreq]; exact hs, rfl⟩

/-- C7 (amended): on every connection-open the handle is added to the
user's set in the ConnectionRegistry (creating the set when this is the
user's first connection), and an "online" status event is broadcast to
every live socket of every accepted friend on EVERY connection-open —
including when the user already had live connections, so a second
simultaneous device connecting triggers another online broadcast.
Message and friendship stores are untouched. -/
theorem connection_registers_and_always_broadcasts (st : ServerState)
    (userId : UserId) (socketId : SocketId) :
    (handleConnection st userId socketId).1.messages = st.messages
  ∧ (handleConnection st userId socketId).1.friendships = st.friendships
  ∧ liveSockets (handleConnection st userId socketId).1.userSockets userId
      = (if socketId ∈ liveSockets st.userSockets userId
          then liveSockets st.userSockets userId
          else liveSockets st.userSockets userId ++ [socketId])
  ∧ ∀ sock u2 status2,
      Emit.friendStatus sock u2 status2
          ∈ (handleConnection st userId socketId).2
        ↔ (u2 = userId ∧ status2 = "online" ∧ ∃ f ∈ st.friendships,
            f.status = "accepted"
              ∧ ((f.requester = userId ∧ sock ∈ liveSockets
                    (handleConnection st userId socketId).1.userSockets
                    f.recipient)
                ∨ (f.requester ≠ userId ∧ f.recipient = userId
                  ∧ sock ∈ liveSockets
                      (handleConnection st userId socketId).1.userSockets
                      f.requester))) := by
  refine ⟨rfl, rfl, ?_, ?_⟩
  · show liveSockets (addSocket (if (socketsOf st.userSockets userId).isSome
        then st.userSockets else st.userSockets ++ [(userId, [])]) userId
        socketId) userId = _
    rcases hso : socketsOf st.userSockets userId with _ | l
    · rw [show (if (none : Option (List SocketId)).isSome = true
          then st.userSockets else st.userSockets ++ [(userId, [])])
          = st.userSockets ++ [(userId, [])] from rfl]
      unfold liveSockets
      rw [socketsOf_addSocket_self,
        socketsOf_append_fresh st.userSockets userId hso, hso]
      simp
    · rw [show (if (some l).isSome = true
          then st.userSockets else st.userSockets ++ [(userId, [])])
          = st.userSockets from rfl]
      unfold liveSockets
      rw [socketsOf_addSocket_self, hso]
      simp
  · intro sock u2 status2
    exact mem_notifyFriendsOfStatus
      { st with userSockets := addSocket (if (socketsOf st.userSockets
          userId).isSome then st.userSockets
          else st.userSockets ++ [(userId, [])]) userId socketId }
      userId "online" sock u2 status2

/-! ## Claim theorems: read receipts -/

/-- C9 counterexample: reader 4 marks [1, 2] read, naming user 8 as the
sender, but message 1 was sent by user 7 and message 2 is addressed to
user 9.  Only message 1 is actually updated, yet user 8's socket — not
the original sender 7, who has no notification — receives the FULL
requested list [1, 2], not the set of now-read ids [1]. -/
theorem markRead_notification_counterexample :
    (handleMarkRead ⟨[⟨1, 7, 4, ⟨"e", "i", "c"⟩, none, ⟨"e", "i", "c"⟩,
          false, false, []⟩,
        ⟨2, 7, 9, ⟨"e", "i", "c"⟩, none, ⟨"e", "i", "c"⟩, false, false, []⟩],
        [], [(8, [30])]⟩ 4 [1, 2] 8).2
        = [Emit.messagesRead 30 [1, 2] 4]
      ∧ ((handleMarkRead ⟨[⟨1, 7, 4, ⟨"e", "i", "c"⟩, none, ⟨"e", "i", "c"⟩,
            false, false, []⟩,
          ⟨2, 7, 9, ⟨"e", "i", "c"⟩, none, ⟨"e", "i", "c"⟩, false, false,
            []⟩], [], [(8, [30])]⟩ 4 [1, 2] 8).1.messages.filter
          (fun m => m.read)).map (fun m => m.id) = [1]
      ∧ ([1, 2] : List MsgId) ≠ [1]
      ∧ liveSockets [(8, [30])] 7 = [] := by
  refine ⟨?_, ?_, ?_, ?_⟩ <;> decide

/-- C9 (amended): `mark_read` sets read=true exactly on the persisted
messages in the requested list whose recipientId equals the reader's id —
every other message, and every other field of the updated messages, is
unchanged — and the live connections of the senderId NAMED IN THE REQUEST
are notified with the full requested id list and the reader's id,
regardless of which of those messages were actually updated or who sent
them. -/
theorem markRead_updates_and_notifies (st : ServerState) (readerId : UserId)
    (messageIds : List MsgId) (senderId : UserId) :
    (handleMarkRead st readerId messageIds senderId).1.friendships
        = st.friendships
      ∧ (handleMarkRead st readerId messageIds senderId).1.userSockets
        = st.userSockets
      ∧ List.Forall₂ (fun m2 m : Msg =>
            m2.read = (if m.id ∈ messageIds ∧ m.recipientId = readerId
              then true else m.read)
            ∧ m2.id = m.id ∧ m2.senderId = m.senderId
            ∧ m2.recipientId = m.recipientId
            ∧ m2.encryptedForRecipient = m.encryptedForRecipient
            ∧ m2.encryptedForSender = m.encryptedForSender
            ∧ m2.encrypted = m.encrypted
            ∧ m2.delivered = m.delivered
            ∧ m2.reactions = m.reactions)
          (handleMarkRead st readerId messageIds senderId).1.messages
          st.messages
      ∧ (handleMarkRead st readerId messageIds senderId).2
        = (liveSockets st.userSockets senderId).map
            (fun s => Emit.messagesRead s messageIds readerId) := by
  refine ⟨rfl, rfl, ?_, rfl⟩
  show List.Forall₂ _ (st.messages.map (fun m =>
      if m.id ∈ messageIds ∧ m.recipientId = readerId
      then { m with read := true } else m)) st.messages
  rw [List.forall₂_map_left_iff, List.forall₂_same]
  intro m hm
  by_cases hc : m.id ∈ messageIds ∧ m.recipientId = readerId
  · simp [hc]
  · simp [hc]

end Secreta
